import Mathlib

/-!
Shallow embedding of `dipy/reconst/mcsd.py` (multi-shell multi-tissue
constrained spherical deconvolution) and verification of the claims of the
natural-language specification against it.

Modelling conventions:
* Vectors and matrices are `List ℚ` and `List (List ℚ)` (rows of rationals).
* External numerical collaborators declared out of scope by the spec
  (SVD from `numpy.linalg`, spherical-harmonic basis evaluation from
  `dipy.reconst.shm`, spherical geometry from `dipy.core.geometry`, and the
  CVXPY solvers) are modelled as oracle parameters: the embedded functions
  take the oracle's output (or the oracle itself, as a function) as an extra
  argument and are otherwise a line-by-line translation of the source.
* The module constant `SH_CONST = .5 / np.sqrt(np.pi)` is irrational, so the
  embedding passes it around as an abstract rational parameter `shc`; no
  claim depends on its numerical value, only on where it is placed.
* Python exceptions (`ValueError`, `AssertionError`, CVXPY failures) become
  `Except McsdError`.
-/

abbrev Vec := List ℚ

abbrev Mat := List Vec

/-- Error kinds raised by the embedded code, named after the spec's error
taxonomy.  `invalidConfiguration` stands for the two `ValueError`s raised on
`iso < 1`, `shapeMismatch` for the `ValueError` of `_inflate_response`, and
`rankDeficiency` for the `assert _rank(P) == P.shape[0]` failure in
`QpFitter.__init__`. -/
inductive McsdError where
  | invalidConfiguration
  | shapeMismatch
  | rankDeficiency
deriving DecidableEq, Repr

/-- Dot product of two vectors, `np.dot` on 1-D arrays. -/
def dot (a b : Vec) : ℚ := (List.zipWith (· * ·) a b).sum

/-- Transpose of a rectangular row-list matrix (numpy `.T`). -/
def transpose : Mat → Mat
  | [] => []
  | [r] => r.map (fun x => [x])
  | r :: rs => List.zipWith (fun x c => x :: c) r (transpose rs)

/-- Matrix-vector product: `matVec A v = A · v`, i.e. `np.dot(A, v)`. -/
def matVec (A : Mat) (v : Vec) : Vec := A.map (fun row => dot row v)

/-- Matrix product `np.dot(A, B)` (rows of `A` against columns of `B`). -/
def matMul (A B : Mat) : Mat :=
  A.map (fun row => (transpose B).map (fun col => dot row col))

/-- Elementwise negation of a vector (`-v` in numpy). -/
def vecNeg (v : Vec) : Vec := v.map (fun x => -x)

/-- Elementwise negation of a matrix (`-A` in numpy). -/
def matNeg (A : Mat) : Mat := A.map vecNeg

/-- Elementwise (Hadamard) product `A * B` of two equal-shaped matrices. -/
def hadamard (A B : Mat) : Mat := List.zipWith (List.zipWith (· * ·)) A B

/-- Embedding of `_rank(A, tol=1e-8)`.  The SVD itself is external
(`numpy.linalg.svd`, out of the spec's scope), so this takes the vector `s`
of singular values the SVD oracle returned (numpy orders them descending, so
`s[0]` is the largest) and performs the counting done in the source:
`threshold = s[0] * tol; rnk = (s > threshold).sum()`. -/
def _rank (s : List ℚ) : ℕ :=
  (s.filter (fun x => s.headI * (1 / 10 ^ 8) < x)).length

/-- State stored by `QpFitter.__init__`: `_P_mat = X^T X`, `_X = X`,
`_reg_mat = -reg` and `_h_mat = np.array([0])`. -/
structure QpFitter where
  P : Mat
  X : Mat
  regMat : Mat
  hMat : Vec
deriving DecidableEq, Repr

/-- Data handed to the black-box QP solver `quadprog(P, Q, G, H)`, which
(per its docstring) minimizes `1/2 x' P x + Q' x` subject to `G x <= H`
through CVXPY. -/
structure QPData where
  P : Mat
  Q : Vec
  G : Mat
  H : Vec
deriving DecidableEq, Repr

/-- Embedding of `QpFitter.__init__(X, reg)`: computes the Gram matrix
`P = np.dot(X.T, X)`, checks `assert _rank(P) == P.shape[0]` (the SVD of
`P` is supplied by the oracle `svd`), and on success stores `P`, `X`,
`-reg` and the right-hand side `[0]`. -/
def qpFitterInit (svd : Mat → List ℚ) (X reg : Mat) : Except McsdError QpFitter :=
  let P := matMul (transpose X) X
  if _rank (svd P) = P.length then
    Except.ok ⟨P, X, matNeg reg, [0]⟩
  else
    Except.error McsdError.rankDeficiency

/-- Embedding of the body of `QpFitter.__call__(signal)` up to the solver
call: `Q = np.dot(self._X.T, signal); Q_mat = np.array(-Q)` and then
`quadprog(self._P_mat, Q_mat, self._reg_mat, self._h_mat)`.  This returns
the argument tuple handed to `quadprog`. -/
def QpFitter.callData (st : QpFitter) (signal : Vec) : QPData :=
  ⟨st.P, vecNeg (matVec (transpose st.X) signal), st.regMat, st.hMat⟩

/-- Embedding of `QpFitter.__call__(signal)` with the QP solver as an
oracle: the returned coefficient vector is whatever the solver returns on
the data the call assembles. -/
def QpFitter.call (solver : QPData → Vec) (st : QpFitter) (signal : Vec) : Vec :=
  solver (st.callData signal)

theorem qpFitterInit_ok_elim (svd : Mat → List ℚ) (X reg : Mat) (st : QpFitter)
    (h : qpFitterInit svd X reg = Except.ok st) :
    st = ⟨matMul (transpose X) X, X, matNeg reg, [0]⟩ := by
  unfold qpFitterInit at h
  by_cases hc : _rank (svd (matMul (transpose X) X)) = (matMul (transpose X) X).length
  · simp [hc] at h
    exact h.symm
  · simp [hc] at h

/-- Claim C1, counterexample.  The claim states that the linear coefficient
vector handed to the QP solver equals `X^T · signal`.  For `X = [[1]]` and
`signal = [3]` we have `X^T · signal = [3]`, but the per-call fit hands the
solver `[-3]` (the code negates `Q` before calling `quadprog`). -/
theorem c1_counterexample :
    (Except.map (fun st => QpFitter.callData st [3]) (qpFitterInit (fun _ => [1]) [[1]] [[1]])
      = Except.ok (⟨[[1]], [-3], [[-1]], [0]⟩ : QPData))
    ∧ matVec (transpose [[1]]) [3] ≠ [-3] := by
  constructor
  · norm_num [qpFitterInit, _rank, List.filter, matMul, matVec, matNeg, vecNeg,
      transpose, dot, QpFitter.callData, Except.map]
  · norm_num [matVec, transpose, dot]

/-- Claim C1, amended.  The per-call fit computes `Q = X^T · signal` but
hands the solver its negation: for every successfully constructed fitter,
the data passed to the QP solver is exactly
`(P, -(X^T · signal), -reg, [0])`, so the program solved is
`minimize 0.5 x^T P x - (X^T signal)^T x` subject to `-reg · x <= 0`. -/
theorem c1_qp_linear_term (svd : Mat → List ℚ) (X reg : Mat) (st : QpFitter)
    (signal : Vec) (solver : QPData → Vec)
    (h : qpFitterInit svd X reg = Except.ok st) :
    QpFitter.call solver st signal
      = solver ⟨matMul (transpose X) X,
          vecNeg (matVec (transpose X) signal), matNeg reg, [0]⟩ := by
  have hst := qpFitterInit_ok_elim svd X reg st h
  subst hst
  rfl

/-- Witness for C1's amended theorem at `X = [[1]]`, `reg = [[1]]`,
`signal = [3]`, with the solver oracle that echoes the linear term. -/
theorem c1_qp_linear_term_witness :
    QpFitter.call (fun d => d.Q) ⟨[[1]], [[1]], [[-1]], [0]⟩ [3]
      = (fun d : QPData => d.Q) ⟨matMul (transpose [[1]]) [[1]],
          vecNeg (matVec (transpose [[1]]) [3]), matNeg [[1]], [0]⟩ :=
  c1_qp_linear_term (fun _ => [1]) [[1]] [[1]] ⟨[[1]], [[1]], [[-1]], [0]⟩ [3]
    (fun d => d.Q)
    (by norm_num [qpFitterInit, _rank, List.filter, matMul, matNeg, vecNeg, transpose, dot])

/-- Claim C3.  Construction of a `QpFitter` fails with a RankDeficiency
error exactly when the rank of `P = X^T X` (counting singular values
strictly above `1e-8` times the largest, as `_rank` does on the SVD
oracle's output) differs from `P.shape[0]`; it succeeds otherwise.  In
particular a deliberately rank-deficient `X` with duplicate columns
(singular values of `P` being `[4, 0]`) is rejected. -/
theorem c3_rank_check (svd : Mat → List ℚ) (X reg : Mat) :
    ((qpFitterInit svd X reg = Except.error McsdError.rankDeficiency
        ↔ _rank (svd (matMul (transpose X) X))
            ≠ (matMul (transpose X) X).length)
      ∧ ((∃ st, qpFitterInit svd X reg = Except.ok st)
          ↔ _rank (svd (matMul (transpose X) X))
              = (matMul (transpose X) X).length))
    ∧ qpFitterInit (fun _ => [4, 0]) [[1, 1], [1, 1]] [[1, 0], [0, 1]]
        = Except.error McsdError.rankDeficiency := by
  constructor
  · constructor
    · unfold qpFitterInit
      by_cases hc : _rank (svd (matMul (transpose X) X))
          = (matMul (transpose X) X).length
      · simp [hc]
      · simp [hc]
    · by_cases hc : _rank (svd (matMul (transpose X) X))
          = (matMul (transpose X) X).length
      · exact ⟨fun _ => hc,
          fun _ => ⟨⟨matMul (transpose X) X, X, matNeg reg, [0]⟩, by simp [qpFitterInit, hc]⟩⟩
      · constructor
        · rintro ⟨st, hst⟩
          simp [qpFitterInit, hc] at hst
        · intro h
          exact absurd h hc
  · norm_num [qpFitterInit, _rank, List.filter, matMul, matNeg, vecNeg, transpose, dot]

/-- First-occurrence argmin of a list, the behaviour of `diff.argmin(axis=0)`
in `closest`: numpy's `argmin` returns the index of the first occurrence of
the minimum value. -/
def argminList : List ℚ → ℕ
  | [] => 0
  | [_] => 0
  | x :: y :: ys =>
    let j := argminList (y :: ys)
    if x ≤ (y :: ys).getD j 0 then 0 else j + 1

theorem argminList_cons_two (x y : ℚ) (ys : List ℚ) :
    argminList (x :: y :: ys)
      = if x ≤ (y :: ys).getD (argminList (y :: ys)) 0 then 0
        else argminList (y :: ys) + 1 := rfl

theorem argminList_lt : ∀ (l : List ℚ), l ≠ [] → argminList l < l.length
  | [], h => absurd rfl h
  | [_], _ => by simp [argminList]
  | x :: y :: ys, _ => by
    have ih := argminList_lt (y :: ys) (by simp)
    rw [argminList_cons_two]
    by_cases h : x ≤ (y :: ys).getD (argminList (y :: ys)) 0
    · rw [if_pos h]
      simp
    · rw [if_neg h]
      simp only [List.length_cons] at ih ⊢
      omega

theorem argminList_le : ∀ (l : List ℚ) (k : ℕ), k < l.length →
    l.getD (argminList l) 0 ≤ l.getD k 0
  | [], _, hk => by simp at hk
  | [x], k, hk => by
    have hk0 : k = 0 := Nat.lt_one_iff.mp (by simpa using hk)
    subst hk0
    simp [argminList]
  | x :: y :: ys, k, hk => by
    rw [argminList_cons_two]
    by_cases h : x ≤ (y :: ys).getD (argminList (y :: ys)) 0
    · rw [if_pos h]
      cases k with
      | zero => exact le_refl _
      | succ k2 =>
        simp only [List.getD_cons_zero, List.getD_cons_succ]
        exact le_trans h (argminList_le (y :: ys) k2 (by simpa using hk))
    · rw [if_neg h]
      cases k with
      | zero =>
        simp only [List.getD_cons_zero, List.getD_cons_succ]
        exact le_of_lt (not_le.mp h)
      | succ k2 =>
        simp only [List.getD_cons_succ]
        exact argminList_le (y :: ys) k2 (by simpa using hk)

theorem argminList_strict_before : ∀ (l : List ℚ) (k : ℕ), k < argminList l →
    l.getD (argminList l) 0 < l.getD k 0
  | [], k, hk => by simp [argminList] at hk
  | [x], k, hk => by simp [argminList] at hk
  | x :: y :: ys, k, hk => by
    rw [argminList_cons_two] at hk ⊢
    by_cases h : x ≤ (y :: ys).getD (argminList (y :: ys)) 0
    · rw [if_pos h] at hk
      exact absurd hk (Nat.not_lt_zero k)
    · rw [if_neg h] at hk ⊢
      cases k with
      | zero =>
        simp only [List.getD_cons_zero, List.getD_cons_succ]
        exact not_le.mp h
      | succ k2 =>
        simp only [List.getD_cons_succ]
        exact argminList_strict_before (y :: ys) k2 (by omega)

/-- Embedding of one column of `closest(haystack, needle)`: the index of
the first entry of `haystack` minimizing the absolute difference to one
query value `b` (the source computes `abs(haystack[:, None] - needle)` and
takes `argmin(axis=0)` per query column). -/
def closestIdx (haystack : List ℚ) (b : ℚ) : ℕ :=
  argminList (haystack.map (fun x => |x - b|))

/-- Embedding of `closest(haystack, needle)` on a vector of query values:
per-query first-occurrence argmin of the absolute difference. -/
def closest (haystack needles : List ℚ) : List ℕ :=
  needles.map (closestIdx haystack)

theorem getD_map_abs : ∀ (l : List ℚ) (b : ℚ) (k : ℕ), k < l.length →
    (l.map (fun x => |x - b|)).getD k 0 = |l.getD k 0 - b|
  | [], _, k, hk => by simp at hk
  | a :: l, b, 0, _ => by simp
  | a :: l, b, k + 1, hk => by
    simpa using getD_map_abs l b k (by simpa using hk)

/-- Claim C4.  For every nonempty shell list and query b-value, the selected
index is in range, minimizes the absolute b-value difference, and ties are
broken towards the lowest shell index; in particular for shells
`[0, 1000, 2000]` and query `1490` the selected shell index is `1`. -/
theorem c4_nearest_shell (shells : List ℚ) (b : ℚ) (hne : shells ≠ []) :
    (closestIdx shells b < shells.length
      ∧ (∀ j, j < shells.length →
          |shells.getD (closestIdx shells b) 0 - b| ≤ |shells.getD j 0 - b|)
      ∧ (∀ j, j < shells.length →
          |shells.getD j 0 - b| = |shells.getD (closestIdx shells b) 0 - b| →
            closestIdx shells b ≤ j))
    ∧ closest [0, 1000, 2000] [1490] = [1] := by
  have hidx : closestIdx shells b = argminList (shells.map (fun x => |x - b|)) := rfl
  have hlt : closestIdx shells b < shells.length := by
    have := argminList_lt (shells.map (fun x => |x - b|)) (by simpa using hne)
    rw [hidx]
    simpa using this
  refine ⟨⟨hlt, ?_, ?_⟩, ?_⟩
  · intro j hj
    rw [← getD_map_abs shells b _ hlt, ← getD_map_abs shells b j hj, hidx]
    exact argminList_le (shells.map (fun x => |x - b|)) j (by simpa using hj)
  · intro j hj heq
    by_contra hcon
    push_neg at hcon
    have hstrict := argminList_strict_before (shells.map (fun x => |x - b|)) j
      (by rw [hidx] at hcon; exact hcon)
    rw [← hidx, getD_map_abs shells b _ hlt, getD_map_abs shells b j hj] at hstrict
    exact absurd heq (ne_of_gt hstrict)
  · have h1 : |(0 : ℚ) - 1490| = 1490 := by
      rw [abs_of_nonpos (by norm_num)]
      norm_num
    have h2 : |(1000 : ℚ) - 1490| = 490 := by
      rw [abs_of_nonpos (by norm_num)]
      norm_num
    have h3 : |(2000 : ℚ) - 1490| = 510 := by
      rw [abs_of_nonneg (by norm_num)]
      norm_num
    have hmap : ([0, 1000, 2000] : List ℚ).map (fun x => |x - 1490|)
        = [1490, 490, 510] := by
      simp only [List.map_cons, List.map_nil, h1, h2, h3]
    simp only [closest, closestIdx, List.map_cons, List.map_nil, hmap]
    norm_num [argminList]

/-- Witness for C4 at shells `[0, 1000, 2000]` and query b-value `1490`:
the minimality property instantiated at shell index `2`. -/
theorem c4_nearest_shell_witness :
    |([0, 1000, 2000] : List ℚ).getD (closestIdx [0, 1000, 2000] 1490) 0 - 1490|
      ≤ |([0, 1000, 2000] : List ℚ).getD 2 0 - 1490| :=
  (c4_nearest_shell [0, 1000, 2000] 1490 (by simp)).1.2.1 2 (by simp)

/-- Embedding of `multi_tissue_basis(gtab, sh_order, iso_comp)`.  The
spherical-harmonic evaluation is external (`geo.cart2sphere` plus
`shm.real_sph_harm`, out of the spec's scope), so the raw basis matrix `B`
it produced for the gradient directions, together with the degree list `n`
from `shm.sph_harm_ind_list`, are oracle inputs; `b0sMask` is
`gtab.b0s_mask` and `shc` the module constant `SH_CONST`.  The function
performs the steps done in the source: reject `iso_comp < 1` with a
`ValueError`, zero the entries at (b0 rows) × (columns with `n > 0`), and
prepend `iso_comp` constant columns valued `SH_CONST`. -/
def multi_tissue_basis (shc : ℚ) (b0sMask : List Bool) (n : List ℕ) (B : Mat)
    (iso_comp : ℕ) : Except McsdError Mat :=
  if iso_comp < 1 then Except.error McsdError.invalidConfiguration
  else
    Except.ok ((b0sMask.zip B).map (fun p =>
      List.replicate iso_comp shc
        ++ (n.zip p.2).map (fun q => if p.1 = true ∧ 0 < q.1 then 0 else q.2)))

/-- State of a `MultiShellResponse` after `__init__`: the per-shell
per-degree coefficient matrix, the maximum SH order, and the shell
b-values (`self.n` and `self.m` are derived from `sh_order` and are not
needed by the claims). -/
structure MultiShellResponse where
  response : Mat
  sh_order : ℕ
  shells : List ℚ
deriving DecidableEq, Repr

/-- The derived `iso` property of `MultiShellResponse`:
`response.shape[1] - (sh_order // 2) - 1`, an integer that may be
negative for badly shaped inputs (hence `ℤ`). -/
def MultiShellResponse.iso (r : MultiShellResponse) : ℤ :=
  (r.response.headI.length : ℤ) - ((r.sh_order / 2 : ℕ) : ℤ) - 1

/-- Embedding of `MultiShellResponse.__init__`: stores the fields and
raises a `ValueError` when the derived `iso` is below one. -/
def mkMultiShellResponse (response : Mat) (sh_order : ℕ) (shells : List ℚ) :
    Except McsdError MultiShellResponse :=
  if (MultiShellResponse.mk response sh_order shells).iso < 1 then
    Except.error McsdError.invalidConfiguration
  else Except.ok (MultiShellResponse.mk response sh_order shells)

/-- Embedding of `_inflate_response(response, gtab, n, delta)`: validate the
target degrees (`any((n % 2) != 0) or (n.max() // 2) >= response.sh_order`
raises a `ValueError`), build the column index map (`iso` isotropic columns
followed by `n // 2 + iso`), divide the response matrix elementwise by the
delta kernel (numpy broadcasts `delta` across rows), and gather at
(nearest-shell row, mapped column) pairs. -/
def inflate_response (response : MultiShellResponse) (bvals : List ℚ) (n : List ℕ)
    (delta : Vec) : Except McsdError Mat :=
  if (∃ d ∈ n, d % 2 ≠ 0) ∨ response.sh_order ≤ n.foldr max 0 / 2 then
    Except.error McsdError.shapeMismatch
  else
    let iso := response.iso.toNat
    let n_idx := List.range iso ++ n.map (fun d => d / 2 + iso)
    let kernal := response.response.map (fun row => List.zipWith (· / ·) row delta)
    let b_idx := closest response.shells bvals
    Except.ok (b_idx.map (fun bi => n_idx.map (fun j => (kernal.getD bi []).getD j 0)))

/-- Claim C5.  In a successfully built multi-tissue basis, every row flagged
b0 is zero in all spherical-harmonic columns of degree `n > 0`, and the
first `iso_comp` columns of every row equal the constant `SH_CONST`
(the abstract `shc`, standing for `0.5/sqrt(pi)`). -/
theorem c5_multi_tissue_basis (shc : ℚ) (b0sMask : List Bool) (n : List ℕ)
    (B : Mat) (iso_comp : ℕ) (rows : Mat)
    (hok : multi_tissue_basis shc b0sMask n B iso_comp = Except.ok rows)
    (i : ℕ) (hiM : i < b0sMask.length) (hiB : i < B.length) :
    (∀ k, k < iso_comp → (rows.getD i []).getD k 0 = shc)
    ∧ (b0sMask.getD i false = true →
        ∀ j, j < n.length → j < (B.getD i []).length → 0 < n.getD j 0 →
          (rows.getD i []).getD (iso_comp + j) 0 = 0) := by
  have hiz : i < (b0sMask.zip B).length := by
    rw [List.length_zip]
    omega
  have hrows : rows = (b0sMask.zip B).map (fun p =>
      List.replicate iso_comp shc
        ++ (n.zip p.2).map (fun q => if p.1 = true ∧ 0 < q.1 then 0 else q.2)) := by
    unfold multi_tissue_basis at hok
    by_cases hlt : iso_comp < 1
    · rw [if_pos hlt] at hok
      exact absurd hok (by simp)
    · rw [if_neg hlt] at hok
      simpa using hok.symm
  have hrow : rows.getD i [] =
      List.replicate iso_comp shc
        ++ (n.zip (B.getD i [])).map
            (fun q => if b0sMask.getD i false = true ∧ 0 < q.1 then 0 else q.2) := by
    rw [hrows, List.getD_eq_getElem _ _ (by simpa using hiz), List.getElem_map,
      List.getElem_zip, List.getD_eq_getElem _ _ hiM, List.getD_eq_getElem _ _ hiB]
  constructor
  · intro k hk
    rw [hrow, List.getD_append _ _ _ _ (by simpa using hk),
      List.getD_eq_getElem _ _ (by simpa using hk), List.getElem_replicate]
  · intro hmask j hjn hjB hn
    have hjz : j < (n.zip (B.getD i [])).length := by
      rw [List.length_zip]
      omega
    rw [hrow, List.getD_append_right _ _ _ _ (by simp),
      List.length_replicate, Nat.add_sub_cancel_left,
      List.getD_eq_getElem _ _ (by simpa using hjz), List.getElem_map,
      List.getElem_zip]
    have hn' : 0 < (n.zip (B.getD i []))[j].1 := by
      rw [List.getElem_zip]
      rw [List.getD_eq_getElem _ _ hjn] at hn
      exact hn
    rw [List.getElem_zip] at hn'
    exact if_pos ⟨hmask, hn'⟩

/-- Witness for C5 at a one-row basis with a b0 row, degrees `[0, 2]`,
raw basis row `[5, 7]`, one isotropic compartment and `shc = 2`: the
isotropic column carries `shc` and the degree-2 column is zeroed. -/
theorem c5_multi_tissue_basis_witness :
    (([[(2 : ℚ), 5, 0]] : Mat).getD 0 []).getD 0 0 = 2
    ∧ (([[(2 : ℚ), 5, 0]] : Mat).getD 0 []).getD (1 + 1) 0 = 0 :=
  ⟨(c5_multi_tissue_basis 2 [true] [0, 2] [[5, 7]] 1 [[2, 5, 0]]
      (by norm_num [multi_tissue_basis]) 0 (by simp) (by simp)).1 0 (by simp),
    (c5_multi_tissue_basis 2 [true] [0, 2] [[5, 7]] 1 [[2, 5, 0]]
      (by norm_num [multi_tissue_basis]) 0 (by simp) (by simp)).2 (by simp) 1
      (by simp) (by simp) (by simp)⟩

/-- Claim C6.  For a nonempty degree list, inflation fails with the
shape-mismatch error exactly when some target degree is odd or
`max(n)/2 >= response.sh_order`, and proceeds without that error when every
degree is even and `max(n)/2 < response.sh_order`. -/
theorem c6_inflate_guard (response : MultiShellResponse) (bvals : List ℚ)
    (n : List ℕ) (delta : Vec) (hne : n ≠ []) :
    (inflate_response response bvals n delta = Except.error McsdError.shapeMismatch
      ↔ ((∃ d ∈ n, d % 2 = 1) ∨ response.sh_order ≤ n.foldr max 0 / 2))
    ∧ ((∀ d ∈ n, d % 2 = 0) → n.foldr max 0 / 2 < response.sh_order →
        ∃ M, inflate_response response bvals n delta = Except.ok M) := by
  have hodd : (∃ d ∈ n, d % 2 ≠ 0) ↔ (∃ d ∈ n, d % 2 = 1) := by
    constructor
    · rintro ⟨d, hd, h⟩
      exact ⟨d, hd, by omega⟩
    · rintro ⟨d, hd, h⟩
      exact ⟨d, hd, by omega⟩
  constructor
  · by_cases hc : (∃ d ∈ n, d % 2 ≠ 0) ∨ response.sh_order ≤ n.foldr max 0 / 2
    · unfold inflate_response
      rw [if_pos hc]
      exact ⟨fun _ => hc.imp (fun h => hodd.mp h) id, fun _ => rfl⟩
    · unfold inflate_response
      rw [if_neg hc]
      exact ⟨fun h => absurd h (by simp), fun h => absurd (h.imp (fun h2 => hodd.mpr h2) id) hc⟩
  · intro hall hmax
    have hc : ¬((∃ d ∈ n, d % 2 ≠ 0) ∨ response.sh_order ≤ n.foldr max 0 / 2) := by
      push_neg
      refine ⟨fun d hd => ?_, by omega⟩
      have := hall d hd
      omega
    unfold inflate_response
    rw [if_neg hc]
    exact ⟨_, rfl⟩

/-- Witness for C6: the error characterization instantiated at a concrete
response of order 2 with target degrees `[0, 2]`. -/
theorem c6_inflate_guard_witness :
    inflate_response ⟨[[1, 1]], 2, [0]⟩ [0] [0, 2] [1, 1]
        = Except.error McsdError.shapeMismatch
      ↔ ((∃ d ∈ [0, 2], d % 2 = 1) ∨ 2 ≤ [0, 2].foldr max 0 / 2) :=
  (c6_inflate_guard ⟨[[1, 1]], 2, [0]⟩ [0] [0, 2] [1, 1] (by simp)).1

/-- Claim C7.  `multi_tissue_basis` fails with the InvalidConfiguration
error exactly when `iso_comp < 1`, and `MultiShellResponse` construction
fails with it exactly when the derived
`iso = columns - (sh_order // 2) - 1` is below one; constructions with the
respective quantity at least one do not raise it. -/
theorem c7_invalid_configuration (resp : Mat) (sh_order : ℕ) (shells : List ℚ)
    (shc : ℚ) (b0sMask : List Bool) (n : List ℕ) (B : Mat) (iso_comp : ℕ) :
    (mkMultiShellResponse resp sh_order shells
        = Except.error McsdError.invalidConfiguration
      ↔ (resp.headI.length : ℤ) - ((sh_order / 2 : ℕ) : ℤ) - 1 < 1)
    ∧ (multi_tissue_basis shc b0sMask n B iso_comp
        = Except.error McsdError.invalidConfiguration
      ↔ iso_comp < 1) := by
  constructor
  · by_cases hc : (resp.headI.length : ℤ) - ((sh_order / 2 : ℕ) : ℤ) - 1 < 1
    · unfold mkMultiShellResponse
      rw [if_pos (show (MultiShellResponse.mk resp sh_order shells).iso < 1 from hc)]
      exact ⟨fun _ => hc, fun _ => rfl⟩
    · unfold mkMultiShellResponse
      rw [if_neg (show ¬(MultiShellResponse.mk resp sh_order shells).iso < 1 from hc)]
      exact ⟨fun h => absurd h (by simp), fun h => absurd h hc⟩
  · by_cases hc : iso_comp < 1
    · unfold multi_tissue_basis
      rw [if_pos hc]
      exact ⟨fun _ => hc, fun _ => rfl⟩
    · unfold multi_tissue_basis
      rw [if_neg hc]
      exact ⟨fun h => absurd h (by simp), fun h => absurd h hc⟩

/-- Assembled state of a `MultiShellDeconvModel` used by `predict` and
`fit`: the forward operator `_X`, the response, the SH order and the
stored delta kernel.  (The constructor's assembly of `X`, the delta and the
regularization operator combines the embedded pieces with external
geometry; the claims quantify over the resulting state.) -/
structure MultiShellDeconvModel where
  X : Mat
  response : MultiShellResponse
  sh_order : ℕ
  delta : Vec
deriving DecidableEq, Repr

/-- State of an `MSDeconvFit`: the raw coefficient vector `_shm_coef`
together with the model it came from. -/
structure MSDeconvFit where
  model : MultiShellDeconvModel
  shm_coef : Vec
deriving DecidableEq, Repr

/-- Embedding of the `shm_coeff` property:
`self._shm_coef[..., self.model.response.iso:]` (the `iso` of any
constructible response is at least one, so the slice start is its `toNat`). -/
def MSDeconvFit.shm_coeff (f : MSDeconvFit) : Vec :=
  f.shm_coef.drop f.model.response.iso.toNat

/-- Embedding of the `volume_fractions` property:
`self._shm_coef[..., :iso + 1] / SH_CONST`. -/
def MSDeconvFit.volume_fractions (shc : ℚ) (f : MSDeconvFit) : Vec :=
  (f.shm_coef.take (f.model.response.iso.toNat + 1)).map (fun x => x / shc)

/-- Claim C8.  Elementwise: the fit result's `shm_coeff` equals the raw
coefficients from index `iso` onward, and its `volume_fractions` equal the
first `iso + 1` raw coefficients each divided by the normalization constant
`SH_CONST` (the abstract `shc`). -/
theorem c8_fit_result (f : MSDeconvFit) (shc : ℚ) (i : ℕ) :
    (f.model.response.iso.toNat + i < f.shm_coef.length →
      f.shm_coeff.getD i 0
        = f.shm_coef.getD (f.model.response.iso.toNat + i) 0)
    ∧ (i < f.model.response.iso.toNat + 1 → i < f.shm_coef.length →
      (f.volume_fractions shc).getD i 0 = f.shm_coef.getD i 0 / shc) := by
  constructor
  · intro hi
    have hlen : i < f.shm_coeff.length := by
      unfold MSDeconvFit.shm_coeff
      rw [List.length_drop]
      omega
    rw [List.getD_eq_getElem _ _ hlen, List.getD_eq_getElem _ _ hi]
    unfold MSDeconvFit.shm_coeff
    rw [List.getElem_drop]
  · intro hi hilen
    have htake : i < (f.shm_coef.take (f.model.response.iso.toNat + 1)).length := by
      rw [List.length_take]
      omega
    have hlen : i < (f.volume_fractions shc).length := by
      unfold MSDeconvFit.volume_fractions
      rw [List.length_map]
      exact htake
    rw [List.getD_eq_getElem _ _ hlen, List.getD_eq_getElem _ _ hilen]
    unfold MSDeconvFit.volume_fractions
    rw [List.getElem_map, List.getElem_take]

/-- Witness for C8 at a concrete fit with `iso = 1`, raw coefficients
`[2, 4, 6]` and `shc = 2`: `shm_coeff[0] = 4` and
`volume_fractions[1] = 4 / 2`. -/
theorem c8_fit_result_witness :
    (MSDeconvFit.mk ⟨[], ⟨[[0, 0, 0]], 2, []⟩, 2, []⟩ [2, 4, 6]).shm_coeff.getD 0 0
        = ([2, 4, 6] : Vec).getD (1 + 0) 0
    ∧ ((MSDeconvFit.mk ⟨[], ⟨[[0, 0, 0]], 2, []⟩, 2, []⟩ [2, 4, 6]).volume_fractions 2).getD 1 0
        = ([2, 4, 6] : Vec).getD 1 0 / 2 := by
  constructor
  · exact (c8_fit_result (MSDeconvFit.mk ⟨[], ⟨[[0, 0, 0]], 2, []⟩, 2, []⟩ [2, 4, 6]) 2 0).1
      (by norm_num [MultiShellResponse.iso])
  · exact (c8_fit_result (MSDeconvFit.mk ⟨[], ⟨[[0, 0, 0]], 2, []⟩, 2, []⟩ [2, 4, 6]) 2 1).2
      (by norm_num [MultiShellResponse.iso]) (by norm_num)

/-- Oracle data for predicting against an alternate gradient table: its b0
mask and b-values, plus the externally evaluated degree list and raw SH
basis matrix for its directions (`shm.sph_harm_ind_list` and
`shm.real_sph_harm` are out of the spec's scope). -/
structure GtabOracle where
  b0sMask : List Bool
  bvals : List ℚ
  n : List ℕ
  B : Mat
deriving DecidableEq, Repr

/-- Embedding of `MultiShellDeconvModel.predict(params, gtab=None, S0=None)`:
with no alternate gradient table it returns `np.dot(params, X.T)` for the
model's own `X`; otherwise it rebuilds the basis and multiplier matrix for
the alternate table and multiplies; the `S0` argument appears in the
signature but is never read by the body. -/
def MultiShellDeconvModel.predict (shc : ℚ) (model : MultiShellDeconvModel)
    (params : Vec) (gtab : Option GtabOracle) (S0 : Option ℚ) :
    Except McsdError Vec :=
  match gtab with
  | none => Except.ok (matVec model.X params)
  | some g => do
    let B ← multi_tissue_basis shc g.b0sMask g.n g.B model.response.iso.toNat
    let mult ← inflate_response model.response g.bvals g.n model.delta
    Except.ok (matVec (hadamard B mult) params)

/-- Claim C9.  The predicted signal is completely independent of the `S0`
argument: for any coefficient vector, any (possibly absent) alternate
gradient table and any two values of `S0`, `predict` returns the same
output (the body never reads `S0`). -/
theorem c9_predict_independent_of_S0 (shc : ℚ) (model : MultiShellDeconvModel)
    (params : Vec) (gtab : Option GtabOracle) (S0a S0b : Option ℚ) :
    model.predict shc params gtab S0a = model.predict shc params gtab S0b := rfl

/-- Data of the CVXPY problem constructed by `_pos_constrained_delta`:
`lp_prob = cvx.Problem(cvx.Maximize(cvx.sum(c_temp)), [G*x <= h])`.  The
problem contains no `cvx.Variable`: `c_temp = G_temp[0]` is a constant
numpy array (the basis sampled at the reference direction), so the
objective is the constant scalar `sum(c_temp)`; `x` in the constraint is
the scalar first Cartesian coordinate returned by
`geo.sphere2cart(1., theta, phi)`, so the constraint compares the constant
matrix `(-G_temp) * x` with the constant matrix `h` filled with
`SH_CONST ** 2`.  (The parameter `c_int`, set to `-c_temp`, is created but
never used.) -/
structure CodeLP where
  objective : ℚ
  lhs : Mat
  rhs : Mat
deriving DecidableEq, Repr

/-- The problem data `_pos_constrained_delta` assembles and hands to
`lp_prob.solve()`.  `B` is the external SH basis evaluated at the rotated
regularization sphere (the rotation and `shm.real_sph_harm` are external),
`n` the degree list and `xc` the scalar `x` from `sphere2cart`;
`G_temp = B[:, n != 0]`, `c_temp = G_temp[0]`. -/
def posLP (shc : ℚ) (n : List ℕ) (B : Mat) (xc : ℚ) : CodeLP :=
  let G_temp := B.map (fun row => ((n.zip row).filter (fun q => q.1 ≠ 0)).map Prod.snd)
  let c_temp := G_temp.headI
  { objective := c_temp.sum
    lhs := (matNeg G_temp).map (fun row => row.map (fun v => v * xc))
    rhs := G_temp.map (fun row => row.map (fun _ => shc ^ 2)) }

/-- Embedding of `_pos_constrained_delta(iso, m, n, theta, phi, reg_sphere)`
with the LP solver as an oracle `solve` (the value `lp_prob.solve()`
returns).  After the solver call the output is zero-initialized, the
degree-0 positions are set to `SH_CONST`, every position with `n != 0` is
set to the single scalar `r`, and `iso` copies of `SH_CONST` are
prepended. -/
def _pos_constrained_delta (shc : ℚ) (solve : CodeLP → ℚ) (iso : ℕ) (n : List ℕ)
    (B : Mat) (xc : ℚ) : Vec :=
  let r := solve (posLP shc n B xc)
  List.replicate iso shc ++ n.map (fun d => if d = 0 then shc else r)

/-- Claim C10.  Every entry of the positivity-constrained delta kernel at a
position of degree `n != 0` equals the one scalar the solver returned for
the assembled problem — all anisotropic coefficients of degree above zero
are identical. -/
theorem c10_pos_delta_constant (shc : ℚ) (solve : CodeLP → ℚ) (iso : ℕ)
    (n : List ℕ) (B : Mat) (xc : ℚ) (i : ℕ) (hi : i < n.length)
    (hnz : n.getD i 0 ≠ 0) :
    (_pos_constrained_delta shc solve iso n B xc).getD (iso + i) 0
      = solve (posLP shc n B xc) := by
  unfold _pos_constrained_delta
  rw [List.getD_append_right _ _ _ _ (by simp), List.length_replicate,
    Nat.add_sub_cancel_left, List.getD_eq_getElem _ _ (by simpa using hi),
    List.getElem_map]
  rw [List.getD_eq_getElem _ _ hi] at hnz
  rw [if_neg hnz]

/-- Witness for C10 at `iso = 1`, degrees `[0, 2]`, a concrete rotated
basis and the solver oracle returning the problem's constant objective. -/
theorem c10_pos_delta_constant_witness :
    (_pos_constrained_delta 1 (fun lp => lp.objective) 1 [0, 2] [[3, 5], [2, 4]] 2).getD
        (1 + 1) 0
      = (fun lp : CodeLP => lp.objective) (posLP 1 [0, 2] [[3, 5], [2, 4]] 2) :=
  c10_pos_delta_constant 1 (fun lp => lp.objective) 1 [0, 2] [[3, 5], [2, 4]] 2 1
    (by simp) (by simp)

/-- Claim C2, code-bug evidence.  The spec (and the source's own comments)
say the `positivity_constrained` strategy maximizes the sampled response at
the reference direction over the SH coefficient variables; but the problem
the source assembles has no decision variable, and its objective is the
constant `sum(c_temp)`.  Evaluated at a concrete input with the solver
returning the (constant) optimal objective value, the objective equals the
plain sum of the sampled basis row `5`, and the kernel's degree-2 entry is
that constant — nothing was optimized. -/
theorem c2_lp_constant_objective :
    (posLP 1 [0, 2] [[3, 5], [2, 4]] (1 / 7)).objective = 5
    ∧ _pos_constrained_delta 1 (fun lp => lp.objective) 1 [0, 2] [[3, 5], [2, 4]] (1 / 7)
        = [1, 1, 5] := by
  constructor
  · norm_num [posLP, List.filter]
  · norm_num [_pos_constrained_delta, posLP, List.filter]
